import Mathlib

/-!
Shallow embedding of the `es_pydantic` bulk-write core
(`es_pydantic/model.py` and `es_pydantic/helpers.py`).

Conventions used throughout:
* Python `Optional[bool]` values are `Option Bool` (`None ↦ none`,
  `True ↦ some true`, `False ↦ some false`).
* Python dicts that are used as per-key buckets (`defaultdict(list)`)
  are association lists `List (String × List α)` in key-insertion order,
  mutated through `upsertA` (append to the bucket, creating the key on
  first use) — this mirrors `Session.actions` and the `results`/`errors`
  accumulators of `helpers.async_bulk`.
* Store traffic is explicit data: `Session.commit` returns the keyword
  dictionary it would hand to `async_bulk` (`sent`), and consumes the
  stream of per-item responses (`List StreamEvent`) that the external
  `async_streaming_bulk` iterator would produce.  The external client is
  out of scope; its responses are a parameter.
* Exceptions are the `Err` inductive, functions that can raise return
  `Except Err _`.
-/

/-- A serialized document body: field name ↦ encoded value
(the result of `ESModel.to_es`, datetimes already ISO-encoded). -/
abbrev Doc := List (String × String)

/-- An `ESModel` instance: the optional identifier (`id: Optional[str]`),
the serialized field values, the `Meta.index` of its class, and whether
`validate_model` succeeds on it (the pydantic validators are external to
the core; their verdict is carried as a field). -/
structure ESRec where
  id : Option String
  body : Doc
  metaIndex : String
  valid : Bool
  deriving DecidableEq, Repr

/-- The `_source` payload of a buffered bulk action.  `Session.index`
accepts an arbitrary object as `body`: a plain mapping (`doc`), the
`{"doc": body}` wrapper built by `Session.update` (`docWrapped`), or a
typed record passed through unchanged (`record`), as
`ESModel.bulk_index` does with the elements of its `collection`. -/
inductive Body
  | doc (d : Doc)
  | docWrapped (d : Doc)
  | record (r : ESRec)
  deriving DecidableEq, Repr

/-- One buffered bulk action (the request dicts built by
`Session.index/create/update/delete`).  The `extra` keyword splat of
`Session.index` is not modelled (all modelled callers pass `{}`). -/
structure BulkAction where
  opType : String
  target : String
  docId : Option String
  source : Option Body
  deriving DecidableEq, Repr

/-- Append `v` to the bucket of key `k`, creating the key at the end on
first use — `defaultdict(list)[k].append(v)` on an insertion-ordered
dict. -/
def upsertA {α : Type} : List (String × List α) → String → α → List (String × List α)
  | [], k, v => [(k, [v])]
  | (k', vs) :: rest, k, v =>
    if k' = k then (k', vs ++ [v]) :: rest
    else (k', vs) :: upsertA rest k v

/-- Bucket lookup with the `defaultdict` default: missing key ↦ `[]`. -/
def lookupL {α : Type} : List (String × List α) → String → List α
  | [], _ => []
  | (k', vs) :: rest, k => if k' = k then vs else lookupL rest k

/-- Plain dict lookup (`d[k]` / `d.get(k)`), `none` when the key is
absent. -/
def alookup {α : Type} : List (String × α) → String → Option α
  | [], _ => none
  | (k', v) :: rest, k => if k' = k then some v else alookup rest k

/-- `Session` state: the pending-mutation buffer `actions`
(op-type name ↦ ordered bucket) and the session-level `_refresh`
policy.  The `results` cache attribute and the `model` back-pointer of
the Python class carry no independent state and are not modelled. -/
structure Session where
  actions : List (String × List BulkAction)
  refresh : Option Bool
  deriving DecidableEq, Repr

/-- `Session.__init__`: empty buffer. -/
def Session.fresh (refresh : Option Bool) : Session := ⟨[], refresh⟩

/-- `Session.__aenter__`: `self.actions.clear()`. -/
def Session.aenter (s : Session) : Session := { s with actions := [] }

/-- The current bucket of one op kind. -/
def Session.bucket (s : Session) (name : String) : List BulkAction :=
  lookupL s.actions name

/-- `Session._action`: append and return `len(self.actions[name]) - 1`. -/
def Session.addAction (s : Session) (name : String) (a : BulkAction) : Nat × Session :=
  let acts := upsertA s.actions name a
  ((lookupL acts name).length - 1, { s with actions := acts })

/-- `Session.index`: `{"_index": index, "_op_type": "index", "_source": body}`. -/
def Session.indexOp (s : Session) (body : Body) (index : String) : Nat × Session :=
  s.addAction "index" ⟨"index", index, none, some body⟩

/-- `Session.delete`: `{"_id": _id, "_index": index, "_op_type": "delete"}`. -/
def Session.deleteOp (s : Session) (id : String) (index : String) : Nat × Session :=
  s.addAction "delete" ⟨"delete", index, some id, none⟩

/-- `Session.create`: `{"_id": _id, "_index": index, "_op_type": "create", "_source": body}`. -/
def Session.createOp (s : Session) (body : Doc) (id : String) (index : String) : Nat × Session :=
  s.addAction "create" ⟨"create", index, some id, some (.doc body)⟩

/-- `Session.update`: `{"_index": index, "_op_type": "update", "_source": {"doc": body}, "_id": _id}`. -/
def Session.updateOp (s : Session) (body : Doc) (id : String) (index : String) : Nat × Session :=
  s.addAction "update" ⟨"update", index, some id, some (.docWrapped body)⟩

/-- `Session.bulk_index`: `[self.index(model, index=index) for model in collection]`. -/
def Session.bulkIndexOp : Session → List Body → String → List Nat × Session
  | s, [], _ => ([], s)
  | s, b :: bs, index =>
    let (i, s') := s.indexOp b index
    let (is, s'') := Session.bulkIndexOp s' bs index
    (i :: is, s'')

/-- `helpers.refresh_keyword`: `"wait_for" if r is None else str(r).lower()`. -/
def refreshKeyword : Option Bool → String
  | none => "wait_for"
  | some true => "true"
  | some false => "false"

/-- Python `a or b` on `Optional[bool]` operands: `a` when `a` is truthy
(i.e. `True`), otherwise `b`. -/
def pyOr (a b : Option Bool) : Option Bool :=
  if a = some true then a else b

/-- A Python value appearing in the keyword dict that `Session.commit`
assembles for `helpers.async_bulk`. -/
inductive PyVal
  | pstr (s : String)
  | pbool (b : Bool)
  | pnone
  | pnat (n : Nat)
  | pactions (l : List BulkAction)
  | pclient
  deriving DecidableEq, Repr

/-- Python truthiness of the values above (the `if v` filter in
`Session.commit`). -/
def pyTruthy : PyVal → Bool
  | .pstr s => !s.isEmpty
  | .pbool b => b
  | .pnone => false
  | .pnat n => n != 0
  | .pactions l => !l.isEmpty
  | .pclient => true

/-- `Optional[int]` (`chunk_size`) as a `PyVal`. -/
def optNatVal : Option Nat → PyVal
  | none => .pnone
  | some n => .pnat n

/-- `list(itertools.chain(*self.actions.values()))`: the buffered
mutations flattened in key-insertion order. -/
def flattenActions (s : Session) : List BulkAction :=
  s.actions.foldr (fun kv acc => kv.2 ++ acc) []

/-- The literal keyword dict built in `Session.commit` (before the
merge with `async_bulk_kwargs` and before the truthiness filter). -/
def baseKwargs (flat : List BulkAction) (refreshStr : String) (chunk : Option Nat) :
    List (String × PyVal) :=
  [("client", .pclient),
   ("actions", .pactions flat),
   ("chunk_size", optNatVal chunk),
   ("refresh", .pstr refreshStr),
   ("raise_on_error", .pbool false),
   ("stats_only", .pbool false)]

/-- `{**async_bulk_kwargs, **kwargs}`: the values of `kwargs` (here
`base`) win on key collisions.  Key order differs from CPython's
(which keeps collided keys at their `extra` position), but lookup
results — all the embedding observes — agree. -/
def mergeKw (extra base : List (String × PyVal)) : List (String × PyVal) :=
  extra.filter (fun kv => (alookup base kv.1).isNone) ++ base

/-- `{k: v for k, v in kwargs.items() if v}`. -/
def filterTruthy (l : List (String × PyVal)) : List (String × PyVal) :=
  l.filter (fun kv => pyTruthy kv.2)

/-- The per-item info of one bulk response item (`item[action]`): the
`_id`, HTTP status and result keyword.  Real responses carry more
fields; these are the ones the core reads. -/
structure WireInfo where
  docId : String
  status : Nat
  result : String
  deriving DecidableEq, Repr

/-- One request-response pair of the bulk stream: a single-key dict
`{action: info}`; `action = list(item.keys())[0]`. -/
structure WireItem where
  action : String
  info : WireInfo
  deriving DecidableEq, Repr

/-- One step of the external `async_streaming_bulk` iterator as consumed
by `helpers.async_bulk`: either a yielded `(ok, item)` pair, or a raised
`BulkIndexError` (which carries at least one error item and terminates
the iterator — the next `anext` gives `StopAsyncIteration`). -/
inductive StreamEvent
  | item (ok : Bool) (it : WireItem)
  | raised (first : WireItem) (more : List WireItem)
  deriving DecidableEq, Repr

/-- Successful `results`: op-kind name ↦ list of `_id`s in arrival order. -/
abbrev ResultMap := List (String × List String)

/-- Collected `errors`: op-kind name ↦ error infos in arrival order. -/
abbrev ErrorsMap := List (String × List WireInfo)

/-- The consumption loop of `helpers.async_bulk`: successes append
`item[action]['_id']` to `results[action]`, failures append
`item[action]` to `errors[action]`; a raised `BulkIndexError` is
recorded as a single failure `e.errors[0]` after which the iterator is
exhausted and the loop breaks. -/
def asyncBulkGo : List StreamEvent → ResultMap → ErrorsMap → ResultMap × ErrorsMap
  | [], res, errs => (res, errs)
  | .item ok it :: rest, res, errs =>
    if ok then asyncBulkGo rest (upsertA res it.action it.info.docId) errs
    else asyncBulkGo rest res (upsertA errs it.action it.info)
  | .raised first _more :: _rest, res, errs =>
    (res, upsertA errs first.action first.info)

/-- `helpers.async_bulk` with `stats_only=False` (the value the core
uses): returns `(dict(results), dict(errors))`. -/
def asyncBulk (outcomes : List StreamEvent) : ResultMap × ErrorsMap :=
  asyncBulkGo outcomes [] []

/-- The exceptions of the core.  `missingId` is the module-level
`MISSING_ID = ValueError("'id' missing from model")` (the spec's
`MissingIdentifierError`); `keyError`/`zipMismatch` are the `KeyError`
of a `results['index']` lookup on a dict without that key and the
`ValueError` of `zip(..., strict=True)` on unequal lengths. -/
inductive Err
  | validation
  | missingId
  | invalidResponse
  | keyError
  | zipMismatch
  | sessionError (errors : ErrorsMap)
  deriving DecidableEq, Repr

deriving instance DecidableEq for Except

/-- What one `Session.commit` call produced: its return value or
exception, the session afterwards, and the keyword dict handed to
`async_bulk` (`none` when the store was never contacted). -/
structure CommitOut where
  result : Except Err ResultMap
  session : Session
  sent : Option (List (String × PyVal))
  deriving DecidableEq, Repr

/-- `Session.commit`.  The response stream of the external client is the
`outcomes` parameter; everything else follows the source: empty buffer
↦ `{}` without store contact; otherwise build and filter the kwargs,
run `async_bulk`, clear the buffer in a `finally`, and raise
`SessionError(errors)` when any errors were collected. -/
def Session.commit (s : Session) (refresh : Option Bool) (chunk : Option Nat)
    (extra : List (String × PyVal)) (outcomes : List StreamEvent) : CommitOut :=
  if s.actions.isEmpty then ⟨.ok [], s, none⟩
  else
    let refreshStr := refreshKeyword (pyOr refresh s.refresh)
    let flat := flattenActions s
    let kwargs := filterTruthy (mergeKw extra (baseKwargs flat refreshStr chunk))
    let (results, errors) := asyncBulk outcomes
    let s' := { s with actions := [] }
    if errors.isEmpty then ⟨.ok results, s', some kwargs⟩
    else ⟨.error (.sessionError errors), s', some kwargs⟩

/-- Truthiness of `model.id` (`not model.id` is true for `None` and for
the empty string). -/
def pyTruthyOptStr : Option String → Bool
  | none => false
  | some s => !s.isEmpty

/-- `ESModel.to_es`: re-validate (raising `ValidationError` on an
invalid record), then return the serialized body (id excluded,
datetimes encoded — both already folded into `ESRec.body`). -/
def ESRec.toEs (r : ESRec) : Except Err Doc :=
  if r.valid then .ok r.body else .error .validation

/-- `Session.SessionModel.index`: serialize via `to_es`, then enqueue on
the session at `model.Meta.index`. -/
def SessionModel.indexOp (s : Session) (m : ESRec) : Except Err Nat × Session :=
  match m.toEs with
  | .error e => (.error e, s)
  | .ok body =>
    let (i, s') := s.indexOp (.doc body) m.metaIndex
    (.ok i, s')

/-- `Session.SessionModel.update`: `if not model.id: raise MISSING_ID`
before anything is serialized or enqueued. -/
def SessionModel.updateOp (s : Session) (m : ESRec) : Except Err Nat × Session :=
  if pyTruthyOptStr m.id then
    match m.toEs with
    | .error e => (.error e, s)
    | .ok body =>
      let (i, s') := s.updateOp body (m.id.getD "") m.metaIndex
      (.ok i, s')
  else (.error .missingId, s)

/-- `Session.SessionModel.delete`: the id check, then `validate_model`,
then enqueue. -/
def SessionModel.deleteOp (s : Session) (m : ESRec) : Except Err Nat × Session :=
  if pyTruthyOptStr m.id then
    if m.valid then
      let (i, s') := s.deleteOp (m.id.getD "") m.metaIndex
      (.ok i, s')
    else (.error .validation, s)
  else (.error .missingId, s)

/-- `Session.SessionModel.create`: the id check, then `to_es`, then
enqueue. -/
def SessionModel.createOp (s : Session) (m : ESRec) : Except Err Nat × Session :=
  if pyTruthyOptStr m.id then
    match m.toEs with
    | .error e => (.error e, s)
    | .ok body =>
      let (i, s') := s.createOp body (m.id.getD "") m.metaIndex
      (.ok i, s')
  else (.error .missingId, s)

/-- The list comprehension
`model_indices = [self.index(model=model) for model in models]`:
enqueue left to right, collecting the returned per-kind positions,
stopping at the first raised exception. -/
def enqueueAllModels : Session → List ESRec → Except Err (List Nat) × Session
  | s, [] => (.ok [], s)
  | s, m :: ms =>
    match SessionModel.indexOp s m with
    | (.error e, s') => (.error e, s')
    | (.ok i, s') =>
      match enqueueAllModels s' ms with
      | (.error e, s'') => (.error e, s'')
      | (.ok is, s'') => (.ok (i :: is), s'')

/-- `models[i].id = created_id` — positional assignment into the models
list.  An out-of-range position (impossible on a fresh session, where
positions are `0..n-1`) is ignored here; the source would raise
`IndexError`. -/
def setIdAt (models : List ESRec) (i : Nat) (v : String) : List ESRec :=
  match models.get? i with
  | some m => models.set i { m with id := some v }
  | none => models

/-- `for i, created_id in zip(model_indices, results["index"], strict=True)`
body: walk both lists in step (the strict length check is done by the
caller before this loop is entered). -/
def assignIds : List ESRec → List Nat → List String → List ESRec
  | models, i :: is, v :: vs => assignIds (setIdAt models i v) is vs
  | models, _, _ => models

/-- `Session.SessionModel.bulk_index` (with its default
`commit_kwargs={}`): validate every model, enqueue them all as `index`
mutations, commit, then read `results["index"]` (a `KeyError` when the
key is absent) and patch the returned ids back by enqueue position,
`zip(..., strict=True)` raising on a length mismatch. -/
def SessionModel.bulkIndex (s : Session) (models : List ESRec)
    (outcomes : List StreamEvent) : Except Err (List ESRec) × Session :=
  if models.any (fun m => !m.valid) then (.error .validation, s)
  else
    match enqueueAllModels s models with
    | (.error e, s') => (.error e, s')
    | (.ok idxs, s') =>
      let c := s'.commit (some false) none [] outcomes
      match c.result with
      | .error e => (.error e, c.session)
      | .ok results =>
        match alookup results "index" with
        | none => (.error .keyError, c.session)
        | some ids =>
          if ids.length = idxs.length then
            (.ok (assignIds models idxs ids), c.session)
          else (.error .zipMismatch, c.session)

/-- `ESModel.bulk_index` (classmethod): open `Session(refresh=True)` in
an `async with` (whose `__aenter__` clears the buffer), enqueue the
collection elements verbatim via `Session.bulk_index`, commit with the
commit defaults, and return `results['index']` (a `KeyError` when that
key is absent).  The collection elements are never written to.  The
second component exposes the keyword dict the commit sent. -/
def ESModel.bulkIndexCls (metaIndex : String) (collection : List Body)
    (outcomes : List StreamEvent) :
    Except Err (List String) × Option (List (String × PyVal)) :=
  let s1 := (Session.fresh (some true)).aenter
  let (_idxs, s2) := s1.bulkIndexOp collection metaIndex
  let c := s2.commit (some false) none [] outcomes
  match c.result with
  | .error e => (.error e, c.sent)
  | .ok results =>
    match alookup results "index" with
    | none => (.error .keyError, c.sent)
    | some ids => (.ok ids, c.sent)

/-- A value inside a raw hit mapping: hits carry strings (`_id`,
`_index`, ...) and objects (`_source`).  A non-object `_source` does not
occur in store responses and is treated as absent. -/
inductive HitVal
  | vstr (s : String)
  | vdoc (d : Doc)
  deriving DecidableEq, Repr

/-- A raw hit as handed to `ESModel.from_es`: a string-keyed mapping. -/
abbrev Hit := List (String × HitVal)

/-- `data.get("_source", {})`. -/
def hitSource (h : Hit) : Doc :=
  match alookup h "_source" with
  | some (.vdoc d) => d
  | _ => []

/-- `data.get("_id")`. -/
def hitId (h : Hit) : Option String :=
  match alookup h "_id" with
  | some (.vstr s) => some s
  | _ => none

/-- `ESModel.from_es`.  `construct` is `cls(**source)` — the pydantic
constructor of the concrete model class, `none` when it raises a
`ValidationError`.  Empty hit ↦ `None`; a falsy `_source` or `_id`
(absent, or empty) ↦ `InvalidElasticsearchResponse`; otherwise build
the record and assign `model.id = _id`. -/
def ESModel.fromEs (construct : Doc → Option ESRec) (data : Hit) :
    Except Err (Option ESRec) :=
  if data.isEmpty then .ok none
  else
    let source := hitSource data
    let theId := hitId data
    if source.isEmpty || !pyTruthyOptStr theId then .error .invalidResponse
    else
      match construct source with
      | none => .error .validation
      | some m => .ok (some { m with id := theId })

/-- One action of an `indices.update_aliases` request. -/
inductive AliasAction
  | remove (aname : String) (pat : String)
  | add (aname : String) (index : String)
  deriving DecidableEq, Repr

/-- One store call issued by `ESModel._Index.migrate`. -/
inductive StoreCall
  | createIndex (name : String)
  | reindexData (sourceIndex targetIndex : String)
  | refreshIndex (name : String)
  | updateAliases (actions : List AliasAction)
  deriving DecidableEq, Repr

/-- Whether a store call is the alias-repoint request. -/
def StoreCall.isUpdateAliases : StoreCall → Bool
  | .updateAliases _ => true
  | _ => false

/-- `_Index.pattern()`: `index_name + "-*"`. -/
def indexPattern (name : String) : String := name ++ "-*"

/-- `self.pattern().replace("*", timestamp)`: the pattern holds exactly
one `*`, at the end, so the substitution is the concatenation
`name ++ "-" ++ ts`. -/
def nextIndexName (name ts : String) : String := name ++ "-" ++ ts

/-- `ESModel._Index.migrate(move_data, update_alias)` as the sequence of
store calls it issues and the name it returns (`res.body['index']` —
the store echoes the requested index name).  The alias repoint, when
requested, is one `update_aliases` call whose action list removes the
alias from the pattern and adds it to the new index. -/
def migrate (name ts : String) (moveData updateAlias : Bool) :
    List StoreCall × String :=
  let next := nextIndexName name ts
  let calls :=
    [StoreCall.createIndex next]
      ++ (if moveData then [StoreCall.reindexData name next, StoreCall.refreshIndex next] else [])
      ++ (if updateAlias then
            [StoreCall.updateAliases
              [AliasAction.remove name (indexPattern name),
               AliasAction.add name next]]
          else [])
  (calls, next)

/-- Character-list prefix test (used for wildcard matching, since the
embedding needs a kernel-computable predicate). -/
def charsPre : List Char → List Char → Bool
  | [], _ => true
  | _ :: _, [] => false
  | a :: as, b :: bs => a = b && charsPre as bs

/-- Store-side index-pattern matching for the patterns the manager
produces: a trailing `*` matches any suffix; a pattern without `*` must
match exactly. -/
def globMatch (pat idx : String) : Bool :=
  match pat.data.getLast? with
  | some c => if c = '*' then charsPre pat.data.dropLast idx.data else pat = idx
  | none => pat = idx

/-- Store semantics of one alias action on the set (kept as a list) of
physical indices currently bound to `alias`: `remove` with a pattern
unbinds every matching index, `add` binds one more. -/
def applyAliasAction (aname : String) (bound : List String) :
    AliasAction → List String
  | .remove a pat =>
    if a = aname then bound.filter (fun i => !globMatch pat i) else bound
  | .add a idx =>
    if a = aname then (if bound.contains idx then bound else bound ++ [idx]) else bound

/-- Store semantics of one atomic `update_aliases` request: the actions
applied in order, no intermediate state observable. -/
def applyAliasActions (aname : String) (bound : List String)
    (acts : List AliasAction) : List String :=
  acts.foldl (applyAliasAction aname) bound

/-- A successful `index` bulk response item carrying the assigned id
(the stream `async_streaming_bulk` yields for an `index` action the
store accepted). -/
def okIndexItem (id : String) : StreamEvent :=
  .item true ⟨"index", ⟨id, 201, "created"⟩⟩

/-- A sequence of `Session._action` enqueues (kind, action) applied in
order, collecting each call's returned position. -/
def runEnqueues : Session → List (String × BulkAction) → List Nat × Session
  | s, [] => ([], s)
  | s, (k, a) :: rest =>
    let (i, s') := s.addAction k a
    let (is, s'') := runEnqueues s' rest
    (i :: is, s'')

/-- The action dict `Session.SessionModel.index` ends up buffering for a
record `m` (via `to_es` and `Session.index`). -/
def mkIndexAction (m : ESRec) : BulkAction :=
  ⟨"index", m.metaIndex, none, some (.doc m.body)⟩

/-- A `404 not_found` error info, as a failed `delete` reports it. -/
def infoNF (i : String) : WireInfo := ⟨i, 404, "not_found"⟩

/-- A session holding two buffered deletes of documents `"1"` and `"2"`
on index `"shirt"` (the documents do not exist in the store). -/
def sessC3 : Session :=
  (((Session.fresh (some false)).deleteOp "1" "shirt").snd.deleteOp "2" "shirt").snd

/-- The response stream the external client produces for those two
deletes under its default `raise_on_error=True`: the whole chunk is
attempted, then a `BulkIndexError` carrying both not-found failures is
raised (cf. the `helpers.async_bulk` docstring: "by default we raise a
BulkIndexError when we encounter an error"). -/
def outcomesC3 : List StreamEvent :=
  [.raised ⟨"delete", infoNF "1"⟩ [⟨"delete", infoNF "2"⟩]]

/-- A concrete fresh record (no id yet). -/
def recB : ESRec := ⟨none, [("brand", "nike")], "shirt", true⟩

/-- A concrete valid record used by witnesses. -/
def recA : ESRec := ⟨none, [("brand", "gucci"), ("color", "red")], "shirt", true⟩

/-- A concrete enqueue sequence mixing op kinds: index, delete, index. -/
def esC6 : List (String × BulkAction) :=
  [("index", ⟨"index", "i", none, some (.doc [])⟩),
   ("delete", ⟨"delete", "i", some "1", none⟩),
   ("index", ⟨"index", "i", none, some (.doc [])⟩)]

/-- A concrete model constructor (`cls(**source)`) for `from_es`
witnesses: accepts any source and stores it as the body. -/
def constructAny (d : Doc) : Option ESRec := some ⟨none, d, "shirt", true⟩

theorem lookupL_upsert_self {α : Type} (m : List (String × List α)) (k : String) (v : α) :
    lookupL (upsertA m k v) k = lookupL m k ++ [v] := by
  induction m with
  | nil => simp [upsertA, lookupL]
  | cons kv rest ih =>
    obtain ⟨k', vs⟩ := kv
    by_cases h : k' = k
    · simp [upsertA, lookupL, h]
    · simp [upsertA, lookupL, h, ih]

theorem lookupL_upsert_other {α : Type} (m : List (String × List α)) (k k' : String)
    (v : α) (h : k ≠ k') : lookupL (upsertA m k v) k' = lookupL m k' := by
  induction m with
  | nil => simp [upsertA, lookupL, h]
  | cons kv rest ih =>
    obtain ⟨k0, vs⟩ := kv
    by_cases h0 : k0 = k
    · subst h0; simp [upsertA, lookupL, h]
    · by_cases h1 : k0 = k'
      · subst h1
        simp [upsertA, lookupL, h0, ih]
      · simp [upsertA, lookupL, h0, h1, ih]

theorem upsertA_ne_nil {α : Type} (m : List (String × List α)) (k : String) (v : α) :
    upsertA m k v ≠ [] := by
  cases m with
  | nil => simp [upsertA]
  | cons kv rest =>
    obtain ⟨k', vs⟩ := kv
    by_cases h : k' = k <;> simp [upsertA, h]

theorem Session.addAction_fst (s : Session) (k : String) (a : BulkAction) :
    (s.addAction k a).fst = (s.bucket k).length := by
  simp [Session.addAction, Session.bucket, lookupL_upsert_self]

theorem Session.addAction_snd (s : Session) (k : String) (a : BulkAction) :
    (s.addAction k a).snd = { s with actions := upsertA s.actions k a } := rfl

theorem runEnqueues_getD (es : List (String × BulkAction)) :
    ∀ (s : Session) (i : Nat) (h : i < es.length),
    (runEnqueues s es).fst.getD i 0
      = (s.bucket (es.get ⟨i, h⟩).fst).length
        + ((es.take i).filter (fun e => e.fst == (es.get ⟨i, h⟩).fst)).length := by
  induction es with
  | nil => intro s i h; simp at h
  | cons e rest ih =>
    intro s i h
    obtain ⟨k, a⟩ := e
    cases i with
    | zero =>
      show ((s.addAction k a).fst :: (runEnqueues (s.addAction k a).snd rest).fst).getD 0 0 = _
      simp [Session.addAction_fst]
    | succ j =>
      have hj : j < rest.length := Nat.lt_of_succ_lt_succ h
      have key := ih (s.addAction k a).snd j hj
      show ((s.addAction k a).fst :: (runEnqueues (s.addAction k a).snd rest).fst).getD (j + 1) 0 = _
      have hget : (((k, a) :: rest).get ⟨j + 1, h⟩) = rest.get ⟨j, hj⟩ := rfl
      rw [List.getD_cons_succ, key, hget]
      by_cases hk : k = (rest.get ⟨j, hj⟩).fst
      · have hb : ((s.addAction k a).snd).bucket (rest.get ⟨j, hj⟩).fst
            = s.bucket (rest.get ⟨j, hj⟩).fst ++ [a] := by
          rw [Session.addAction_snd]
          show lookupL (upsertA s.actions k a) _ = _
          rw [← hk, lookupL_upsert_self]
          rfl
        rw [hb]
        subst hk
        simp [List.take_succ_cons, List.filter_cons]
        omega
      · have hb : ((s.addAction k a).snd).bucket (rest.get ⟨j, hj⟩).fst
            = s.bucket (rest.get ⟨j, hj⟩).fst := by
          rw [Session.addAction_snd]
          exact lookupL_upsert_other _ _ _ _ hk
        rw [hb]
        simp only [List.get_eq_getElem] at hk
        simp [List.take_succ_cons, List.filter_cons, hk]

theorem asyncBulkGo_okList (L : List String) :
    ∀ (res : ResultMap), asyncBulkGo (L.map okIndexItem) res []
      = (L.foldl (fun r id => upsertA r "index" id) res, []) := by
  induction L with
  | nil => intro res; rfl
  | cons v L ih => intro res; simp [okIndexItem, asyncBulkGo, ih]

theorem foldl_upsert_acc (L : List String) :
    ∀ (acc : List String),
    L.foldl (fun r id => upsertA r "index" id) [("index", acc)] = [("index", acc ++ L)] := by
  induction L with
  | nil => intro acc; simp
  | cons v L ih => intro acc; simp [upsertA, ih]

theorem asyncBulk_okList (L : List String) :
    asyncBulk (L.map okIndexItem) = (if L.isEmpty then [] else [("index", L)], []) := by
  cases L with
  | nil => rfl
  | cons v L =>
    rw [asyncBulk, asyncBulkGo_okList]
    simp [upsertA, foldl_upsert_acc]

theorem alookup_append {α : Type} (l1 l2 : List (String × α)) (k : String) :
    alookup (l1 ++ l2) k
      = match alookup l1 k with
        | some v => some v
        | none => alookup l2 k := by
  induction l1 with
  | nil => simp [alookup]
  | cons kv rest ih =>
    obtain ⟨k', v⟩ := kv
    by_cases h : k' = k <;> simp [alookup, h, ih]

theorem alookup_filter_keyfalse {α : Type} (p : String × α → Bool) (k : String)
    (hp : ∀ v, p (k, v) = false) (l : List (String × α)) :
    alookup (l.filter p) k = none := by
  induction l with
  | nil => simp [alookup]
  | cons kv rest ih =>
    obtain ⟨k', v⟩ := kv
    by_cases h : k' = k
    · subst h
      simp [List.filter_cons, hp v, ih]
    · by_cases h2 : p (k', v) <;> simp [List.filter_cons, h2, alookup, h, ih]

theorem alookup_base_refresh (flat : List BulkAction) (rs : String) (chunk : Option Nat) :
    alookup (baseKwargs flat rs chunk) "refresh" = some (.pstr rs) := by
  have n1 : ("client" : String) ≠ "refresh" := by decide
  have n2 : ("actions" : String) ≠ "refresh" := by decide
  have n3 : ("chunk_size" : String) ≠ "refresh" := by decide
  simp [baseKwargs, alookup, n1, n2, n3]

theorem alookup_base_raise (flat : List BulkAction) (rs : String) (chunk : Option Nat) :
    alookup (baseKwargs flat rs chunk) "raise_on_error" = some (.pbool false) := by
  have n1 : ("client" : String) ≠ "raise_on_error" := by decide
  have n2 : ("actions" : String) ≠ "raise_on_error" := by decide
  have n3 : ("chunk_size" : String) ≠ "raise_on_error" := by decide
  have n4 : ("refresh" : String) ≠ "raise_on_error" := by decide
  simp [baseKwargs, alookup, n1, n2, n3, n4]

theorem isEmpty_false_of_ne (rs : String) (hrs : rs ≠ "") : rs.isEmpty = false := by
  cases h : rs.isEmpty
  · rfl
  · exact absurd ((String.isEmpty_iff rs).mp h) hrs

theorem alookup_filterTruthy_cons_ne (k0 k : String) (v : PyVal)
    (l : List (String × PyVal)) (h : k0 ≠ k) :
    alookup (filterTruthy ((k0, v) :: l)) k = alookup (filterTruthy l) k := by
  by_cases hv : pyTruthy v <;> simp [filterTruthy, List.filter_cons, hv, alookup, h]

theorem alookup_filterTruthy_cons_true (k : String) (v : PyVal)
    (l : List (String × PyVal)) (hv : pyTruthy v = true) :
    alookup (filterTruthy ((k, v) :: l)) k = some v := by
  simp [filterTruthy, List.filter_cons, hv, alookup]

theorem alookup_filterTruthy_cons_false (k0 k : String) (v : PyVal)
    (l : List (String × PyVal)) (hv : pyTruthy v = false) :
    alookup (filterTruthy ((k0, v) :: l)) k = alookup (filterTruthy l) k := by
  simp [filterTruthy, List.filter_cons, hv]

theorem alookup_filterTruthy_base_refresh (flat : List BulkAction) (rs : String)
    (chunk : Option Nat) (hrs : rs ≠ "") :
    alookup (filterTruthy (baseKwargs flat rs chunk)) "refresh" = some (.pstr rs) := by
  have hT : pyTruthy (.pstr rs) = true := by
    simp [pyTruthy, isEmpty_false_of_ne rs hrs]
  unfold baseKwargs
  rw [alookup_filterTruthy_cons_ne _ _ _ _ (by decide)]
  rw [alookup_filterTruthy_cons_ne _ _ _ _ (by decide)]
  rw [alookup_filterTruthy_cons_ne _ _ _ _ (by decide)]
  rw [alookup_filterTruthy_cons_true _ _ _ hT]

theorem alookup_filterTruthy_base_raise (flat : List BulkAction) (rs : String)
    (chunk : Option Nat) :
    alookup (filterTruthy (baseKwargs flat rs chunk)) "raise_on_error" = none := by
  unfold baseKwargs
  rw [alookup_filterTruthy_cons_ne _ _ _ _ (by decide)]
  rw [alookup_filterTruthy_cons_ne _ _ _ _ (by decide)]
  rw [alookup_filterTruthy_cons_ne _ _ _ _ (by decide)]
  rw [alookup_filterTruthy_cons_ne _ _ _ _ (by decide)]
  rw [alookup_filterTruthy_cons_false _ _ _ _ (by simp [pyTruthy])]
  rw [alookup_filterTruthy_cons_false _ _ _ _ (by simp [pyTruthy])]
  simp [filterTruthy, alookup]

theorem alookup_sent_refresh (extra : List (String × PyVal)) (flat : List BulkAction)
    (rs : String) (chunk : Option Nat) (hrs : rs ≠ "") :
    alookup (filterTruthy (mergeKw extra (baseKwargs flat rs chunk))) "refresh"
      = some (.pstr rs) := by
  rw [mergeKw, filterTruthy, List.filter_append, alookup_append]
  have h1 : alookup ((extra.filter fun kv =>
      (alookup (baseKwargs flat rs chunk) kv.1).isNone).filter fun kv => pyTruthy kv.2)
      "refresh" = none := by
    rw [List.filter_filter]
    apply alookup_filter_keyfalse
    intro v
    simp [alookup_base_refresh]
  rw [h1]
  exact alookup_filterTruthy_base_refresh flat rs chunk hrs

theorem alookup_sent_raise (extra : List (String × PyVal)) (flat : List BulkAction)
    (rs : String) (chunk : Option Nat) :
    alookup (filterTruthy (mergeKw extra (baseKwargs flat rs chunk))) "raise_on_error"
      = none := by
  rw [mergeKw, filterTruthy, List.filter_append, alookup_append]
  have h1 : alookup ((extra.filter fun kv =>
      (alookup (baseKwargs flat rs chunk) kv.1).isNone).filter fun kv => pyTruthy kv.2)
      "raise_on_error" = none := by
    rw [List.filter_filter]
    apply alookup_filter_keyfalse
    intro v
    simp [alookup_base_raise]
  rw [h1]
  exact alookup_filterTruthy_base_raise flat rs chunk

theorem refreshKeyword_ne_empty (r : Option Bool) : refreshKeyword r ≠ "" := by
  match r with
  | none => decide
  | some true => decide
  | some false => decide

theorem commit_empty (s : Session) (r : Option Bool) (chunk : Option Nat)
    (extra : List (String × PyVal)) (outcomes : List StreamEvent) (h : s.actions = []) :
    s.commit r chunk extra outcomes = ⟨.ok [], s, none⟩ := by
  simp only [Session.commit, List.isEmpty_iff.mpr h, if_true]

theorem commit_of_asyncBulk_ok (s : Session) (r : Option Bool) (chunk : Option Nat)
    (extra : List (String × PyVal)) (outcomes : List StreamEvent) (res : ResultMap)
    (h : s.actions ≠ []) (hab : asyncBulk outcomes = (res, [])) :
    s.commit r chunk extra outcomes
      = ⟨.ok res, { s with actions := [] },
         some (filterTruthy (mergeKw extra (baseKwargs (flattenActions s)
           (refreshKeyword (pyOr r s.refresh)) chunk)))⟩ := by
  simp only [Session.commit, List.isEmpty_eq_false.mpr h, hab]
  simp

theorem commit_session_actions (s : Session) (r : Option Bool) (chunk : Option Nat)
    (extra : List (String × PyVal)) (outcomes : List StreamEvent) :
    (s.commit r chunk extra outcomes).session.actions = [] := by
  by_cases h : s.actions = []
  · rw [commit_empty s r chunk extra outcomes h]
    exact h
  · rcases hab : asyncBulk outcomes with ⟨res, errs⟩
    simp only [Session.commit, List.isEmpty_eq_false.mpr h, hab]
    by_cases he : errs.isEmpty <;> simp [he]

theorem commit_sent_nonempty (s : Session) (r : Option Bool) (chunk : Option Nat)
    (extra : List (String × PyVal)) (outcomes : List StreamEvent) (h : s.actions ≠ []) :
    (s.commit r chunk extra outcomes).sent
      = some (filterTruthy (mergeKw extra (baseKwargs (flattenActions s)
          (refreshKeyword (pyOr r s.refresh)) chunk))) := by
  rcases hab : asyncBulk outcomes with ⟨res, errs⟩
  simp only [Session.commit, List.isEmpty_eq_false.mpr h, hab]
  by_cases he : errs.isEmpty <;> simp [he]

theorem enqueueAllModels_eq (ms : List ESRec) :
    ∀ (s : Session), ms.all (fun m => m.valid) = true →
    enqueueAllModels s ms
      = (.ok (List.range' (s.bucket "index").length ms.length),
         { s with actions := ms.foldl (fun a m => upsertA a "index" (mkIndexAction m)) s.actions }) := by
  induction ms with
  | nil =>
    intro s _
    simp [enqueueAllModels, List.range']
  | cons m ms ih =>
    intro s hv
    simp only [List.all_cons, Bool.and_eq_true] at hv
    obtain ⟨hm, hms⟩ := hv
    have hop : SessionModel.indexOp s m
        = (.ok (s.bucket "index").length,
           { s with actions := upsertA s.actions "index" (mkIndexAction m) }) := by
      simp [SessionModel.indexOp, ESRec.toEs, hm, Session.indexOp, Session.addAction,
        lookupL_upsert_self, Session.bucket, mkIndexAction]
    have hb : ({ s with actions := upsertA s.actions "index" (mkIndexAction m)} :
        Session).bucket "index" = s.bucket "index" ++ [mkIndexAction m] := by
      show lookupL (upsertA s.actions "index" (mkIndexAction m)) "index" = _
      rw [lookupL_upsert_self]
      rfl
    simp only [enqueueAllModels, hop, ih _ hms, hb]
    simp [List.range'_succ]

theorem foldl_upsert_ne_nil {β : Type} (g : β → BulkAction) (l : List β) :
    ∀ (acc : List (String × List BulkAction)), (acc ≠ [] ∨ l ≠ []) →
    l.foldl (fun a x => upsertA a "index" (g x)) acc ≠ [] := by
  induction l with
  | nil =>
    intro acc h
    simpa using h.resolve_right (by simp)
  | cons x l ih =>
    intro acc _
    rw [List.foldl_cons]
    exact ih _ (Or.inl (upsertA_ne_nil _ _ _))

theorem bulkIndexOp_snd_actions (bs : List Body) :
    ∀ (s : Session) (idx : String),
    (Session.bulkIndexOp s bs idx).snd.actions
      = bs.foldl (fun a b =>
          upsertA a "index" (⟨"index", idx, none, some b⟩ : BulkAction)) s.actions := by
  induction bs with
  | nil => intro s idx; rfl
  | cons b bs ih =>
    intro s idx
    simp only [List.foldl_cons]
    exact ih _ idx

theorem get?_append_cons (pre : List ESRec) (m : ESRec) (rest : List ESRec) :
    (pre ++ m :: rest).get? pre.length = some m := by
  induction pre with
  | nil => rfl
  | cons p pre ih => simpa using ih

theorem set_append_cons (pre : List ESRec) (m m' : ESRec) (rest : List ESRec) :
    (pre ++ m :: rest).set pre.length m' = pre ++ m' :: rest := by
  induction pre with
  | nil => rfl
  | cons p pre ih =>
    show p :: ((pre ++ m :: rest).set pre.length m') = p :: (pre ++ m' :: rest)
    rw [ih]

theorem setIdAt_append_cons (pre : List ESRec) (m : ESRec) (rest : List ESRec)
    (v : String) :
    setIdAt (pre ++ m :: rest) pre.length v
      = pre ++ { m with id := some v } :: rest := by
  simp only [setIdAt, get?_append_cons]
  rw [set_append_cons]

theorem assignIds_range' (rest : List ESRec) :
    ∀ (pre : List ESRec) (L : List String), L.length = rest.length →
    assignIds (pre ++ rest) (List.range' pre.length rest.length) L
      = pre ++ List.zipWith (fun m v => { m with id := some v }) rest L := by
  induction rest with
  | nil =>
    intro pre L hL
    have : L = [] := List.length_eq_zero.mp hL
    subst this
    simp [assignIds, List.range']
  | cons m rest ih =>
    intro pre L hL
    cases L with
    | nil => simp at hL
    | cons v L' =>
      have hL' : L'.length = rest.length := by simpa using hL
      rw [List.length_cons, List.range'_succ]
      show assignIds (setIdAt (pre ++ m :: rest) pre.length v)
        (List.range' (pre.length + 1) rest.length) L' = _
      rw [setIdAt_append_cons]
      have hlen : pre.length + 1 = (pre ++ [{ m with id := some v }]).length := by
        simp
      have hsplit : pre ++ { m with id := some v } :: rest
          = (pre ++ [{ m with id := some v }]) ++ rest := by
        simp
      rw [hlen, hsplit, ih _ L' hL']
      simp

theorem bulkIndexOp_snd_refresh (bs : List Body) :
    ∀ (s : Session) (idx : String),
    (Session.bulkIndexOp s bs idx).snd.refresh = s.refresh := by
  induction bs with
  | nil => intro s idx; rfl
  | cons b bs ih => intro s idx; exact ih _ idx

/-- Claim C10 (confirmed): entering a Bulk Session's scoped-acquisition
context (`Session.__aenter__`) clears the pending-mutation buffer, so
mutations enqueued on the session object before entering the scope are
silently discarded and the scope starts with an empty buffer. -/
theorem c10_aenter_clears_buffer (s : Session) :
    Session.aenter s = { s with actions := [] } ∧ (Session.aenter s).actions = [] :=
  ⟨rfl, rfl⟩

/-- Claim C6 (confirmed): every enqueue returns the 0-based position of
the appended mutation within its own opKind bucket (`_action` returns
`len(self.actions[name]) - 1`), and over any enqueue sequence from a
fresh session the i-th call returns the number of earlier enqueues of
the same opKind — a per-kind counter, unaffected by mutations of other
kinds enqueued before or between. -/
theorem c6_enqueue_returns_per_kind_position :
    (∀ (s : Session) (k : String) (a : BulkAction),
      (s.addAction k a).fst = (s.bucket k).length) ∧
    (∀ (es : List (String × BulkAction)) (i : Nat) (h : i < es.length),
      (runEnqueues (Session.fresh none) es).fst.getD i 0
        = ((es.take i).filter (fun e => e.fst == (es.get ⟨i, h⟩).fst)).length) := by
  constructor
  · exact Session.addAction_fst
  · intro es i h
    rw [runEnqueues_getD es (Session.fresh none) i h]
    simp [Session.fresh, Session.bucket, lookupL]

theorem c6_witness :
    (runEnqueues (Session.fresh none) esC6).fst.getD 2 0 = 1 ∧
    ((esC6.take 2).filter (fun e => e.fst == (esC6.get ⟨2, by decide⟩).fst)).length = 1 := by
  constructor
  · rw [c6_enqueue_returns_per_kind_position.2 esC6 2 (by decide)]
    decide
  · decide

/-- Claim C5 (confirmed): a session-model `update` or `delete` enqueue
request for a record whose id is None fails synchronously at enqueue
time with `MISSING_ID` (the spec's `MissingIdentifierError`), before
commit, and nothing is appended to the pending buffer — the session is
returned unchanged. -/
theorem c5_update_delete_without_id_fail_fast (s : Session) (m : ESRec)
    (h : m.id = none) :
    SessionModel.updateOp s m = (.error .missingId, s) ∧
    SessionModel.deleteOp s m = (.error .missingId, s) := by
  constructor <;> simp [SessionModel.updateOp, SessionModel.deleteOp, h, pyTruthyOptStr]

theorem c5_witness :
    SessionModel.updateOp (Session.fresh none) recA
      = (.error .missingId, Session.fresh none) ∧
    SessionModel.deleteOp (Session.fresh none) recA
      = (.error .missingId, Session.fresh none) :=
  c5_update_delete_without_id_fail_fast (Session.fresh none) recA rfl

/-- Claim C4 (confirmed): after any commit call — whether the batch
succeeded or a `SessionError` (or any other error from the store call)
was raised — the pending buffer is empty (the `finally` clear), and a
commit on a session with an empty buffer returns the empty result map
`{}` with no request sent to the store, independently of whatever the
store would have answered. -/
theorem c4_commit_clears_buffer_and_empty_noop (s : Session) (r : Option Bool)
    (chunk : Option Nat) (extra : List (String × PyVal))
    (outcomes : List StreamEvent) :
    (s.commit r chunk extra outcomes).session.actions = [] ∧
    (s.actions = [] → s.commit r chunk extra outcomes = ⟨.ok [], s, none⟩) :=
  ⟨commit_session_actions s r chunk extra outcomes,
   fun h => commit_empty s r chunk extra outcomes h⟩

theorem c4_witness :
    ((Session.fresh none).commit none none [] [okIndexItem "X"]).session.actions = [] ∧
    (Session.fresh none).commit none none [] [okIndexItem "X"]
      = ⟨.ok [], Session.fresh none, none⟩ := by
  have h := c4_commit_clears_buffer_and_empty_noop (Session.fresh none) none none []
    [okIndexItem "X"]
  exact ⟨h.1, h.2 rfl⟩

/-- Claim C8 (confirmed): the refresh policy a commit sends to the store
is `refresh_keyword` of the effective policy `refresh or self._refresh`:
absent/None encodes to `"wait_for"`, True to `"true"`, False to
`"false"`; every store-contacting commit carries exactly that string
under the `refresh` keyword of the request it sends. -/
theorem c8_refresh_policy_encoding :
    refreshKeyword none = "wait_for" ∧
    refreshKeyword (some true) = "true" ∧
    refreshKeyword (some false) = "false" ∧
    (∀ (s : Session) (r : Option Bool) (chunk : Option Nat)
       (extra : List (String × PyVal)) (outcomes : List StreamEvent),
      s.actions ≠ [] →
      ∃ kw, (s.commit r chunk extra outcomes).sent = some kw ∧
        alookup kw "refresh" = some (.pstr (refreshKeyword (pyOr r s.refresh)))) := by
  refine ⟨rfl, rfl, rfl, ?_⟩
  intro s r chunk extra outcomes h
  exact ⟨_, commit_sent_nonempty s r chunk extra outcomes h,
    alookup_sent_refresh extra (flattenActions s) _ chunk (refreshKeyword_ne_empty _)⟩

theorem c8_witness :
    ∃ kw, (sessC3.commit none none [] outcomesC3).sent = some kw ∧
      alookup kw "refresh" = some (.pstr "false") := by
  have h := c8_refresh_policy_encoding.2.2.2 sessC3 none none [] outcomesC3 (by decide)
  have hr : refreshKeyword (pyOr none sessC3.refresh) = "false" := rfl
  rw [hr] at h
  exact h

/-- Claim C7 (confirmed): `from_es` returns None on an empty hit; raises
`InvalidElasticsearchResponse` on a non-empty hit whose source body or
identifier is missing (falsy); otherwise returns the record constructed
from the source body with the hit's identifier assigned to its id
field. -/
theorem c7_from_es_cases (construct : Doc → Option ESRec) (data : Hit) :
    (data = [] → ESModel.fromEs construct data = .ok none) ∧
    (data ≠ [] →
      ((hitSource data).isEmpty = true ∨ pyTruthyOptStr (hitId data) = false) →
      ESModel.fromEs construct data = .error .invalidResponse) ∧
    (∀ m, data ≠ [] → (hitSource data).isEmpty = false →
      pyTruthyOptStr (hitId data) = true → construct (hitSource data) = some m →
      ESModel.fromEs construct data = .ok (some { m with id := hitId data })) := by
  refine ⟨?_, ?_, ?_⟩
  · intro h; subst h; rfl
  · intro h1 h2
    have hne : data.isEmpty = false := List.isEmpty_eq_false.mpr h1
    rcases h2 with h2 | h2 <;> simp [ESModel.fromEs, hne, h2]
  · intro m h1 h2 h3 h4
    have hne : data.isEmpty = false := List.isEmpty_eq_false.mpr h1
    simp [ESModel.fromEs, hne, h2, h3, h4]

theorem c7_witness :
    ESModel.fromEs constructAny [] = .ok none ∧
    ESModel.fromEs constructAny [("_id", .vstr "9")] = .error .invalidResponse ∧
    ESModel.fromEs constructAny
        [("_source", .vdoc [("brand", "nike")]), ("_id", .vstr "9")]
      = .ok (some ⟨some "9", [("brand", "nike")], "shirt", true⟩) := by
  refine ⟨(c7_from_es_cases constructAny []).1 rfl, ?_, ?_⟩
  · exact (c7_from_es_cases constructAny _).2.1 (by decide) (by decide)
  · exact (c7_from_es_cases constructAny _).2.2 _ (by decide) (by decide) (by decide) rfl

/-- Claim C9 (confirmed): a `migrate` call with `update_alias=True`
issues exactly one `update_aliases` request (its last store call), whose
action list first removes the alias from every physical index matching
the logical pattern and then adds it to the newly created physical
index; applying that single atomic request to any alias binding whose
members all match the pattern leaves the alias bound to exactly the new
physical index — never zero, never more than one. -/
theorem c9_migrate_single_atomic_alias_repoint (name ts : String) (moveData : Bool)
    (bound : List String)
    (h : ∀ i ∈ bound, globMatch (indexPattern name) i = true) :
    ((migrate name ts moveData true).fst.countP StoreCall.isUpdateAliases = 1) ∧
    ((migrate name ts moveData true).fst.getLast?
      = some (.updateAliases [.remove name (indexPattern name),
                              .add name (nextIndexName name ts)])) ∧
    (applyAliasActions name bound
        [.remove name (indexPattern name), .add name (nextIndexName name ts)]
      = [nextIndexName name ts]) := by
  refine ⟨?_, ?_, ?_⟩
  · cases moveData <;>
      simp [migrate, List.countP_cons, List.countP_append, StoreCall.isUpdateAliases]
  · cases moveData <;> rfl
  · have hfilter : bound.filter (fun i => !globMatch (indexPattern name) i) = [] := by
      rw [List.filter_eq_nil_iff]
      intro a ha
      simp [h a ha]
    simp [applyAliasActions, applyAliasAction, hfilter]

theorem c9_witness :
    (∀ i ∈ ["products-20230101"], globMatch (indexPattern "products") i = true) ∧
    applyAliasActions "products" ["products-20230101"]
        [.remove "products" (indexPattern "products"),
         .add "products" (nextIndexName "products" "20240101")]
      = [nextIndexName "products" "20240101"] := by
  constructor
  · decide
  · exact (c9_migrate_single_atomic_alias_repoint "products" "20240101" true
      ["products-20230101"] (by decide)).2.2

/-- Claim C3 (code_bug): the commit of two buffered deletes of
nonexistent documents, evaluated on the stream the external iterator
produces under its default raise-on-error behaviour.  `commit` writes
`raise_on_error: False` into its kwargs (third conjunct) but the
truthiness filter `{k: v for k, v in kwargs.items() if v}` strips it
(False is falsy, second conjunct), so `async_streaming_bulk` keeps its
default and raises a `BulkIndexError` carrying both failures, of which
`async_bulk` records only `e.errors[0]` before the iterator is
exhausted: the `SessionError` carries `errors["delete"]` of length 1,
not 2 (first conjunct). -/
theorem c3_commit_error_collection_eval :
    (sessC3.commit (some false) none [] outcomesC3).result
      = .error (.sessionError [("delete", [infoNF "1"])]) ∧
    ((sessC3.commit (some false) none [] outcomesC3).sent.map
      (fun kw => alookup kw "raise_on_error")) = some none ∧
    alookup (baseKwargs (flattenActions sessC3)
        (refreshKeyword (pyOr (some false) sessC3.refresh)) none) "raise_on_error"
      = some (.pbool false) :=
  ⟨by decide, by decide, by decide⟩

/-- Claim C2 (corrected) counterexample: the class-level
`ESModel.bulk_index` returns the assigned identifier but never assigns
it to the record — after the call the record's id field is still None
(first two conjuncts: the call succeeds with the id list, while the
record, which the code never writes to, keeps `id = none`); and on an
empty record list the commit returns `{}` and the `results['index']`
lookup raises a `KeyError` instead of returning an empty identifier
list (third conjunct). -/
theorem c2_counterexample :
    (ESModel.bulkIndexCls "shirt" [Body.record recB] [okIndexItem "X1"]).fst
      = .ok ["X1"] ∧
    recB.id = none ∧
    (ESModel.bulkIndexCls "shirt" [] []).fst = .error .keyError :=
  ⟨by decide, rfl, by decide⟩

/-- Claim C2 (corrected, amended): for every non-empty record list, the
class-level `bulk_index` opens an implicit Bulk Session with refresh
enabled (the request it sends carries `refresh = "true"`), enqueues all
elements as index operations, commits, and returns the store-assigned
identifiers in input order; the records themselves are not modified, so
their id fields keep their prior values (None for fresh records). -/
theorem c2_bulk_index_cls_amended (metaIndex : String) (collection : List Body)
    (L : List String) (hc : collection ≠ []) (hL : L ≠ []) :
    (ESModel.bulkIndexCls metaIndex collection (L.map okIndexItem)).fst = .ok L ∧
    (∃ kw, (ESModel.bulkIndexCls metaIndex collection (L.map okIndexItem)).snd
        = some kw ∧ alookup kw "refresh" = some (.pstr "true")) := by
  rcases hbi : (Session.fresh (some true)).aenter.bulkIndexOp collection metaIndex
    with ⟨idxs, s2⟩
  have hacts : s2.actions = collection.foldl (fun a b =>
      upsertA a "index" (⟨"index", metaIndex, none, some b⟩ : BulkAction))
      ((Session.fresh (some true)).aenter).actions := by
    have := bulkIndexOp_snd_actions collection ((Session.fresh (some true)).aenter) metaIndex
    rw [hbi] at this
    exact this
  have hs2 : s2.actions ≠ [] := by
    rw [hacts]
    exact foldl_upsert_ne_nil _ collection _ (Or.inr hc)
  have hs2r : s2.refresh = some true := by
    have := bulkIndexOp_snd_refresh collection ((Session.fresh (some true)).aenter) metaIndex
    rw [hbi] at this
    exact this
  have hab : asyncBulk (L.map okIndexItem) = ([("index", L)], []) := by
    simp [asyncBulk_okList, List.isEmpty_eq_false.mpr hL]
  have hcommit := commit_of_asyncBulk_ok s2 (some false) none [] (L.map okIndexItem)
    [("index", L)] hs2 hab
  have hrk : refreshKeyword (pyOr (some false) s2.refresh) = "true" := by
    rw [hs2r]
    rfl
  constructor
  · simp only [ESModel.bulkIndexCls, hbi, hcommit]
    simp [alookup]
  · refine ⟨filterTruthy (mergeKw [] (baseKwargs (flattenActions s2)
        (refreshKeyword (pyOr (some false) s2.refresh)) none)), ?_, ?_⟩
    · simp only [ESModel.bulkIndexCls, hbi, hcommit]
      simp [alookup]
    · rw [hrk]
      exact alookup_sent_refresh [] (flattenActions s2) "true" none (by decide)

theorem c2_witness :
    (ESModel.bulkIndexCls "shirt" [Body.record recA, Body.record recB]
        (["Y1", "Y2"].map okIndexItem)).fst = .ok ["Y1", "Y2"] ∧
    (∃ kw, (ESModel.bulkIndexCls "shirt" [Body.record recA, Body.record recB]
        (["Y1", "Y2"].map okIndexItem)).snd = some kw ∧
      alookup kw "refresh" = some (.pstr "true")) :=
  c2_bulk_index_cls_amended "shirt" [Body.record recA, Body.record recB]
    ["Y1", "Y2"] (by decide) (by decide)

/-- Claim C1 (corrected) counterexample: on a fresh session and an empty
record list — zero records enqueued, zero identifiers returned, so the
counts agree — the model-level `bulk_index` still raises: the commit of
the empty buffer returns `{}`, and `results["index"]` raises `KeyError`
before the strict zip is reached. -/
theorem c1_counterexample :
    (SessionModel.bulkIndex (Session.fresh (some false)) [] []).fst
      = .error .keyError := by
  decide

theorem enqueueAllModels_fresh (ms : List ESRec) (rf : Option Bool)
    (hv : ms.all (fun m => m.valid) = true) :
    enqueueAllModels (Session.fresh rf) ms
      = (.ok (List.range' 0 ms.length),
         Session.mk (ms.foldl (fun a m => upsertA a "index" (mkIndexAction m)) []) rf) :=
  enqueueAllModels_eq ms (Session.fresh rf) hv

/-- Claim C1 (corrected, amended): for every fresh Bulk Session and
every NON-EMPTY list of valid records, the model-level `bulk_index`
enqueues each record as an `index` mutation, commits, and assigns each
record's id from the commit results for the `index` opKind at the
per-opKind position returned at enqueue time (positions `0..n-1`), in
enqueue order — when the store returns identifiers `L` in action order,
record i receives `L[i]`; and it raises when the counts of enqueued
records and returned identifiers disagree. -/
theorem c1_session_model_bulk_index_amended (models : List ESRec) (L : List String)
    (rf : Option Bool) (hne : models ≠ []) (hv : models.all (fun m => m.valid) = true) :
    (L.length = models.length →
      (SessionModel.bulkIndex (Session.fresh rf) models (L.map okIndexItem)).fst
        = .ok (List.zipWith (fun m v => { m with id := some v }) models L)) ∧
    (L.length ≠ models.length →
      ∃ e, (SessionModel.bulkIndex (Session.fresh rf) models (L.map okIndexItem)).fst
        = .error e) := by
  have hany : (models.any fun m => !m.valid) = false := by
    rw [List.any_eq_false]
    intro x hx
    simp [List.all_eq_true.mp hv x hx]
  have heq := enqueueAllModels_fresh models rf hv
  have hsne : (Session.mk (models.foldl
      (fun a m => upsertA a "index" (mkIndexAction m)) []) rf).actions ≠ [] :=
    foldl_upsert_ne_nil mkIndexAction models _ (Or.inr hne)
  constructor
  · intro hLen
    have hLne : L ≠ [] := by
      intro h0
      subst h0
      exact hne (List.length_eq_zero.mp (by simpa using hLen.symm))
    have hab : asyncBulk (L.map okIndexItem) = ([("index", L)], []) := by
      simp [asyncBulk_okList, List.isEmpty_eq_false.mpr hLne]
    have hcommit := commit_of_asyncBulk_ok
      (Session.mk (models.foldl (fun a m => upsertA a "index" (mkIndexAction m)) []) rf)
      (some false) none [] (L.map okIndexItem) [("index", L)] hsne hab
    have hassign := assignIds_range' models [] L hLen
    simp only [List.nil_append, List.length_nil] at hassign
    simp only [SessionModel.bulkIndex, hany, Bool.false_eq_true, if_false, heq, hcommit]
    simp [alookup, List.length_range', hLen, hassign]
  · intro hLen
    by_cases hLe : L = []
    · subst hLe
      have hcommit := commit_of_asyncBulk_ok
        (Session.mk (models.foldl (fun a m => upsertA a "index" (mkIndexAction m)) []) rf)
        (some false) none [] (([] : List String).map okIndexItem) [] hsne rfl
      refine ⟨.keyError, ?_⟩
      simp only [SessionModel.bulkIndex, hany, Bool.false_eq_true, if_false, heq, hcommit]
      simp [alookup]
    · have hab : asyncBulk (L.map okIndexItem) = ([("index", L)], []) := by
        simp [asyncBulk_okList, List.isEmpty_eq_false.mpr hLe]
      have hcommit := commit_of_asyncBulk_ok
        (Session.mk (models.foldl (fun a m => upsertA a "index" (mkIndexAction m)) []) rf)
        (some false) none [] (L.map okIndexItem) [("index", L)] hsne hab
      refine ⟨.zipMismatch, ?_⟩
      simp only [SessionModel.bulkIndex, hany, Bool.false_eq_true, if_false, heq, hcommit]
      simp [alookup, List.length_range', hLen]

theorem c1_witness :
    (SessionModel.bulkIndex (Session.fresh none) [recA] (["A1"].map okIndexItem)).fst
      = .ok [{ recA with id := some "A1" }] ∧
    ∃ e, (SessionModel.bulkIndex (Session.fresh none) [recA]
        (["A1", "A2"].map okIndexItem)).fst = .error e := by
  constructor
  · exact (c1_session_model_bulk_index_amended [recA] ["A1"] none (by decide)
      (by decide)).1 rfl
  · exact (c1_session_model_bulk_index_amended [recA] ["A1", "A2"] none (by decide)
      (by decide)).2 (by decide)
